import Mathlib

/-!
Verification of `src/src/lib/PatternDetector.cpp` (juanmanpr/findObject).

Shallow embedding notes.

Numeric model: OpenCV `float`/`double` values are modelled as `ℚ`; the one
floating-point behaviour the code relies on (the NaN produced by `0/0` in the
ratio test and the fact that any comparison against NaN is false) is modelled
explicitly by the `FVal` type below, which tags a quotient as finite, NaN or
infinite exactly as IEEE division of nonnegative numbers would.

External collaborators (OpenCV feature detection, descriptor extraction,
`cv::findHomography`, `cv::warpPerspective`, `cv::perspectiveTransform`,
grayscale conversion, image geometry) are parameters gathered in an `Env`
structure: the embedded pipeline is a deterministic function of the `Env`.
The brute-force Hamming matcher (`cv::BFMatcher(NORM_HAMMING)`) is embedded
concretely: descriptors are bit lists and matching minimises the Hamming
distance, which is what `train` builds for every pattern.

Partial operations of the C++ code (out-of-range `std::vector`/`cv::Mat`
indexing, `knnMatch` rows read at position 1 when fewer than two train
descriptors exist, arithmetic on an empty `cv::Mat`) are modelled by `Option`:
a `none` result marks undefined behaviour / a thrown OpenCV error.

Mutable member state of `PatternDetector` that survives between calls and is
read before being overwritten (`m_queryKeypoints`, `m_queryDescriptors`,
`m_refinedHomography`) is threaded explicitly through `DState`; output
parameters that a callee may leave untouched (`info`, the homography argument
of `refineMatchesWithHomography`) are passed in and returned.
-/

/-- Descriptor: one fixed-length binary descriptor, a list of bits
(`cv::Mat` row of a binary descriptor matrix). -/
abbrev Desc : Type := List Bool

/-- Hamming distance between two binary descriptors (`cv::NORM_HAMMING`):
number of positions where the bits differ. -/
def hamming : List Bool → List Bool → ℕ
  | a :: as, b :: bs => (if a = b then 0 else 1) + hamming as bs
  | _, _ => 0

/-- Distance of two descriptors as the `ℚ` value stored in `cv::DMatch.distance`. -/
def distQ (a b : Desc) : ℚ := (hamming a b : ℚ)

/-- Embedding of `cv::DMatch`: a correspondence (queryIdx, trainIdx, distance). -/
structure DMatch where
  queryIdx : ℕ
  trainIdx : ℕ
  distance : ℚ
deriving DecidableEq, Repr

/-- Embedding of `cv::KeyPoint` (only the point `pt` is used by the code). -/
structure KeyPoint where
  pt : ℚ × ℚ
deriving DecidableEq, Repr

/-- A 3-D point (`cv::Point3f`). -/
structure Pt3 where
  x : ℚ
  y : ℚ
  z : ℚ
deriving DecidableEq, Repr

/-- A 3×3 homography matrix (`cv::Mat` of `CV_64FC1`, 3×3), entry `aij` in row
i, column j. -/
structure M33 where
  a00 : ℚ
  a01 : ℚ
  a02 : ℚ
  a10 : ℚ
  a11 : ℚ
  a12 : ℚ
  a20 : ℚ
  a21 : ℚ
  a22 : ℚ
deriving DecidableEq, Repr

/-- Matrix product of two homographies (`cv::Mat operator*` at
`PatternDetector.cpp:240`). -/
def matMul (A B : M33) : M33 :=
  { a00 := A.a00 * B.a00 + A.a01 * B.a10 + A.a02 * B.a20
    a01 := A.a00 * B.a01 + A.a01 * B.a11 + A.a02 * B.a21
    a02 := A.a00 * B.a02 + A.a01 * B.a12 + A.a02 * B.a22
    a10 := A.a10 * B.a00 + A.a11 * B.a10 + A.a12 * B.a20
    a11 := A.a10 * B.a01 + A.a11 * B.a11 + A.a12 * B.a21
    a12 := A.a10 * B.a02 + A.a11 * B.a12 + A.a12 * B.a22
    a20 := A.a20 * B.a00 + A.a21 * B.a10 + A.a22 * B.a20
    a21 := A.a20 * B.a01 + A.a21 * B.a11 + A.a22 * B.a21
    a22 := A.a20 * B.a02 + A.a21 * B.a12 + A.a22 * B.a22 }

/-- The 3×3 identity (`cv::Mat::eye(3, 3, CV_64FC1)` at
`PatternDetector.cpp:349`). -/
def id3 : M33 := ⟨1, 0, 0, 0, 1, 0, 0, 0, 1⟩

/-- Result of an IEEE float division of nonnegative operands: a finite value,
NaN (`0/0`), or +infinity (`x/0` with `x > 0`). -/
inductive FVal where
  | fin : ℚ → FVal
  | nan : FVal
  | inf : FVal
deriving DecidableEq, Repr

/-- IEEE division of two nonnegative float values (the quotient
`bestMatch.distance / betterMatch.distance` at `PatternDetector.cpp:142` and
`PatternDetector.cpp:309`). -/
def fdivF (a b : ℚ) : FVal :=
  if b ≠ 0 then FVal.fin (a / b) else if a = 0 then FVal.nan else FVal.inf

/-- IEEE comparison `x < c` for a float division result: any comparison with
NaN is false, and +infinity is not below any finite bound. -/
def fvalLt (x : FVal) (c : ℚ) : Bool :=
  match x with
  | FVal.fin q => decide (q < c)
  | FVal.nan => false
  | FVal.inf => false

/-- The ratio-test threshold `minRatio = 1.f/1.5f` of `PatternDetector.cpp:133`
and `PatternDetector.cpp:300`. -/
def minRatioThreshold : ℚ := 1 / 1.5

/-- Candidate list of a query descriptor against the trained descriptors:
train index paired with Hamming distance (what `BFMatcher` minimises over). -/
def candidates (trainDescriptors : List Desc) (q : Desc) : List (ℕ × ℚ) :=
  trainDescriptors.enum.map fun jd => (jd.1, distQ q jd.2)

/-- Best (minimum-distance, first wins ties) candidate — `BFMatcher::match`,
one nearest match per query descriptor; `none` when no train descriptor
exists. -/
def bestOf : List (ℕ × ℚ) → Option (ℕ × ℚ)
  | [] => none
  | c :: rest => some (rest.foldl (fun b x => if x.2 < b.2 then x else b) c)

/-- Order a pair of candidates so the nearer one comes first. -/
def order2 (c0 c1 : ℕ × ℚ) : (ℕ × ℚ) × (ℕ × ℚ) :=
  if c1.2 < c0.2 then (c1, c0) else (c0, c1)

/-- Fold step maintaining the two nearest candidates seen so far. -/
def knnStep (bs : (ℕ × ℚ) × (ℕ × ℚ)) (x : ℕ × ℚ) : (ℕ × ℚ) × (ℕ × ℚ) :=
  if x.2 < bs.1.2 then (x, bs.1)
  else if x.2 < bs.2.2 then (bs.1, x)
  else bs

/-- `BFMatcher::knnMatch` with k = 2 for one query descriptor: the two nearest
trained candidates, nearest first.  The C++ loop then reads rows 0 and 1 of
the returned match vector (`PatternDetector.cpp:139`), which is out-of-range
unless two trained descriptors exist: that case is `none`. -/
def knn2 (trainDescriptors : List Desc) (q : Desc) :
    Option ((ℕ × ℚ) × (ℕ × ℚ)) :=
  match candidates trainDescriptors q with
  | c0 :: c1 :: rest => some (rest.foldl knnStep (order2 c0 c1))
  | _ => none

/-- The ratio-test loop of `PatternDetector.cpp:138` and
`PatternDetector.cpp:305`: for each (queryIdx, descriptor), keep the best knn
match only when `bestMatch.distance / betterMatch.distance < minRatio`. -/
def ratioPass (trainDescriptors : List Desc) :
    List (ℕ × Desc) → Option (List DMatch)
  | [] => some []
  | iq :: rest =>
    match knn2 trainDescriptors iq.2, ratioPass trainDescriptors rest with
    | some bs, some tail =>
      if fvalLt (fdivF bs.1.2 bs.2.2) minRatioThreshold then
        some (⟨iq.1, bs.1.1, bs.1.2⟩ :: tail)
      else some tail
    | _, _ => none

/-- The per-query sequence of `distanceRatio` values the ratio test computes
(`float distanceRatio = bestMatch.distance / betterMatch.distance` at
`PatternDetector.cpp:142` / `PatternDetector.cpp:309`). -/
def ratioList (trainDescriptors queryDescriptors : List Desc) :
    Option (List FVal) :=
  queryDescriptors.mapM fun q =>
    (knn2 trainDescriptors q).map fun bs => fdivF bs.1.2 bs.2.2

/-- `PatternDetector::getMatches` (`PatternDetector.cpp:292`; the matching
half of `findPatternMatch`, `PatternDetector.cpp:129`, is the same code):
ratio-test mode filters knn pairs, plain mode takes the single nearest match
per query descriptor. -/
def getMatches (enableRatioTest : Bool)
    (trainDescriptors queryDescriptors : List Desc) : Option (List DMatch) :=
  if enableRatioTest then ratioPass trainDescriptors queryDescriptors.enum
  else
    some (queryDescriptors.enum.filterMap fun iq =>
      (bestOf (candidates trainDescriptors iq.2)).map fun b => ⟨iq.1, b.1, b.2⟩)

/-- The inlier filter of `PatternDetector.cpp:352`: keep `matches[i]` when
`inliersMask[i]` is set. -/
def maskFilter (matchList : List DMatch) (mask : List Bool) : List DMatch :=
  (matchList.zip mask).filterMap fun p => if p.2 then some p.1 else none

/-- `minNumberMatchesAllowed` of `PatternDetector.cpp:328`. -/
def minNumberMatchesAllowed : ℕ := 25

/-- `PatternDetector::refineMatchesWithHomography` (`PatternDetector.cpp:323`).
`fH` is the external `cv::findHomography`, returning an optional transform
(`none` models the empty matrix of its documented failure mode,
`PatternDetector.cpp:347`) and the inlier mask.  `homographyIn` is the value
the by-reference output holds on entry; the early return leaves it untouched.
`none` models undefined behaviour: a match index outside the keypoint lists,
or a mask longer than the match list. -/
def refineMatchesWithHomography
    (fH : List (ℚ × ℚ) → List (ℚ × ℚ) → ℚ → Option M33 × List Bool)
    (queryKeypoints trainKeypoints : List KeyPoint)
    (reprojectionThreshold : ℚ) (matchList : List DMatch)
    (homographyIn : Option M33) :
    Option (Bool × List DMatch × Option M33) :=
  if matchList.length < minNumberMatchesAllowed then
    some (false, matchList, homographyIn)
  else
    match matchList.mapM (fun m => (trainKeypoints.get? m.trainIdx).map KeyPoint.pt),
        matchList.mapM (fun m => (queryKeypoints.get? m.queryIdx).map KeyPoint.pt) with
    | some srcPoints, some dstPoints =>
      let hm := fH srcPoints dstPoints reprojectionThreshold
      let homography := hm.1.getD id3
      if hm.2.length ≤ matchList.length then
        let inliers := maskFilter matchList hm.2
        some (decide (minNumberMatchesAllowed < inliers.length), inliers,
          some homography)
      else none
    | _, _ => none

/-- The external collaborators of the pipeline (spec section 6), abstracted
over the image type `Img`: feature detection and descriptor extraction
(`m_detector->detect`, `m_extractor->compute`), robust homography estimation
(`cv::findHomography`), perspective warping, point transformation, grayscale
conversion (`getGray`), and the image dimensions `cols`/`rows`. -/
structure Env (Img : Type) where
  dims : Img → ℕ × ℕ
  toGray : Img → Img
  detect : Img → List KeyPoint
  compute : Img → List KeyPoint → List KeyPoint × List Desc
  findHomography : List (ℚ × ℚ) → List (ℚ × ℚ) → ℚ → Option M33 × List Bool
  warpPerspective : Img → M33 → ℚ × ℚ → Img
  perspectiveTransform : List (ℚ × ℚ) → M33 → List (ℚ × ℚ)

/-- `PatternDetector::extractFeatures` (`PatternDetector.cpp:271`) with the
by-reference output parameters made explicit: `keypoints0`/`descriptors0` are
the values the outputs hold on entry.  `detect` overwrites the keypoints; when
it finds none the function returns `false` early and the descriptors output
keeps its previous contents. -/
def extractFeatures (env : Env Img) (image : Img)
    (_keypoints0 : List KeyPoint) (descriptors0 : List Desc) :
    Bool × List KeyPoint × List Desc :=
  let keypoints := env.detect image
  if keypoints.isEmpty then (false, keypoints, descriptors0)
  else
    let kd := env.compute image keypoints
    if kd.1.isEmpty then (false, kd.1, kd.2) else (true, kd.1, kd.2)

/-- Embedding of `Pattern` (declared in the missing `PatternDetector.hpp`,
built by `buildPatternsFromImages` / `buildPatternsFromYAML`). -/
structure Pattern where
  size : ℚ × ℚ
  points2d : List (ℚ × ℚ)
  points3d : List Pt3
  keypoints : List KeyPoint
  descriptors : List Desc
deriving DecidableEq, Repr

/-- The `PatternDetector` configuration and trained store: the constructor
flags (`PatternDetector.cpp:13`) plus `m_patterns` and `m_matchers`.  A
trained `cv::BFMatcher(NORM_HAMMING)` is fully determined by the descriptor
set added to it, so a matcher is embedded as its trained descriptor list. -/
structure PatternDetector where
  enableRatioTest : Bool
  enableHomographyRefinement : Bool
  homographyReprojectionThreshold : ℚ
  m_patterns : List Pattern
  m_matchers : List (List Desc)
deriving Repr

/-- The constructor `PatternDetector::PatternDetector`
(`PatternDetector.cpp:13`): refinement on, threshold 3, empty store. -/
def PatternDetector.init (ratioTest : Bool) : PatternDetector :=
  { enableRatioTest := ratioTest
    enableHomographyRefinement := true
    homographyReprojectionThreshold := 3
    m_patterns := []
    m_matchers := [] }

/-- `PatternDetector::train` (`PatternDetector.cpp:23`): replace the pattern
store and rebuild one matcher per pattern from that pattern's descriptors. -/
def PatternDetector.train (det : PatternDetector) (patterns : List Pattern) :
    PatternDetector :=
  { det with
    m_patterns := patterns
    m_matchers := patterns.map fun p => p.descriptors }

/-- The mutable scratch members of `PatternDetector` that survive between
`findPattern` calls and can be read before being overwritten:
`m_queryKeypoints`, `m_queryDescriptors` and `m_refinedHomography`
(`none` models the default-constructed empty `cv::Mat`). -/
structure DState where
  queryKeypoints : List KeyPoint
  queryDescriptors : List Desc
  refinedHomography : Option M33
deriving DecidableEq, Repr

/-- The scratch state of a freshly constructed `PatternDetector`. -/
def DState.init : DState :=
  { queryKeypoints := [], queryDescriptors := [], refinedHomography := none }

/-- Embedding of `PatternTrackingInfo`: the output parameter of
`findPattern`. -/
structure TrackingInfo where
  patternIdx : ℕ
  homography : M33
  points2d : List (ℚ × ℚ)
deriving DecidableEq, Repr

/-- One per-pattern result slot: `m_matches[i]`, `m_matches_homography[i]`
(`none` for a never-written empty `cv::Mat`), and
`m_matches_homographyFound[i]`. -/
structure PerPatternResult where
  matchList : List DMatch
  homography : Option M33
  homographyFound : Bool
deriving DecidableEq, Repr

/-- `PatternDetector::findPatternMatch` (`PatternDetector.cpp:125`): match the
query descriptors against pattern `patternIdx`'s matcher, then validate with
`refineMatchesWithHomography`.  The local `roughHomography` starts as an empty
`cv::Mat`, hence the `none` passed through.  `none` overall marks undefined
behaviour (out-of-range pattern index or keypoint index). -/
def findPatternMatch (env : Env Img) (det : PatternDetector)
    (queryKeypoints : List KeyPoint) (queryDescriptors : List Desc)
    (patternIdx : ℕ) : Option PerPatternResult :=
  match det.m_matchers.get? patternIdx with
  | none => none
  | some trainDescriptors =>
    match getMatches det.enableRatioTest trainDescriptors queryDescriptors with
    | none => none
    | some matchList =>
      match det.m_patterns.get? patternIdx with
      | none => none
      | some pattern =>
        match refineMatchesWithHomography env.findHomography queryKeypoints
            pattern.keypoints det.homographyReprojectionThreshold matchList none with
        | none => none
        | some (found, inliers, homOpt) =>
          some ⟨inliers, homOpt, found⟩

/-- The selection loop of `PatternDetector.cpp:184`: scan the slots in store
order carrying `maxFound` (starts at 0) and `maxFoundIdx`; a slot is taken
when its homography was found and its match count strictly exceeds
`maxFound`. -/
def selectGo : List (Bool × ℕ) → ℕ → ℕ → Option ℕ → Option ℕ
  | [], _, _, best => best
  | p :: rest, i, maxFound, best =>
    if p.1 = true ∧ maxFound < p.2 then selectGo rest (i + 1) p.2 (some i)
    else selectGo rest (i + 1) maxFound best

/-- The best-candidate selector of `findPattern` (`PatternDetector.cpp:184`)
as a function of the (homographyFound, match count) slots; `none` means
`homographyFound` stayed false and the call returns failure. -/
def selectBest (slots : List (Bool × ℕ)) : Option ℕ :=
  selectGo slots 0 0 none

/-- The result-processing half of `findPattern` (`PatternDetector.cpp:184` to
`PatternDetector.cpp:259`): select the best slot; on success optionally run
the refinement stage (warp, re-extract, re-match, re-estimate, compose), and
fill the `info` output.  `st1` is the scratch state after query feature
extraction; `info` is the output parameter's value on entry (it is returned
untouched when no homography was found).  `none` marks undefined behaviour:
reading a homography slot that holds an empty matrix where OpenCV arithmetic
would throw, or out-of-range indexing. -/
def processResults (env : Env Img) (det : PatternDetector) (grayImg : Img)
    (st1 : DState) (results : List PerPatternResult) (info : TrackingInfo) :
    Option (Bool × TrackingInfo × DState) :=
  match selectBest (results.map fun r => (r.homographyFound, r.matchList.length)) with
  | none => some (false, info, st1)
  | some maxFoundIdx =>
    match results.get? maxFoundIdx, det.m_patterns.get? maxFoundIdx with
    | some r, some pattern =>
      match r.homography with
      | none => none
      | some roughHomography =>
        if det.enableHomographyRefinement then
          let warpedImg := env.warpPerspective grayImg roughHomography pattern.size
          let ef := extractFeatures env warpedImg [] []
          match det.m_matchers.get? maxFoundIdx with
          | none => none
          | some trainDescriptors =>
            match getMatches det.enableRatioTest trainDescriptors ef.2.2 with
            | none => none
            | some refinedMatches =>
              match refineMatchesWithHomography env.findHomography ef.2.1
                  pattern.keypoints det.homographyReprojectionThreshold
                  refinedMatches st1.refinedHomography with
              | none => none
              | some (found2, _inliers, refinedOpt) =>
                match refinedOpt with
                | none => none
                | some refinedHomography =>
                  let finalHomography := matMul roughHomography refinedHomography
                  some (found2,
                    { patternIdx := maxFoundIdx
                      homography := finalHomography
                      points2d := env.perspectiveTransform pattern.points2d
                        finalHomography },
                    { st1 with refinedHomography := refinedOpt })
        else
          some (true,
            { patternIdx := maxFoundIdx
              homography := roughHomography
              points2d := env.perspectiveTransform pattern.points2d
                roughHomography },
            st1)
    | _, _ => none

/-- `PatternDetector::findPattern` (`PatternDetector.cpp:166`): grayscale
conversion, query feature extraction (its `false` result is ignored, exactly
as in the source), the per-pattern matching jobs (the `cv::parallel_for_`
writes disjoint slots, so the sequential order below is its deterministic
semantics), then result processing. -/
def findPattern (env : Env Img) (det : PatternDetector) (st : DState)
    (image : Img) (info : TrackingInfo) :
    Option (Bool × TrackingInfo × DState) :=
  let grayImg := env.toGray image
  let ef := extractFeatures env grayImg st.queryKeypoints st.queryDescriptors
  let st1 : DState :=
    { st with queryKeypoints := ef.2.1, queryDescriptors := ef.2.2 }
  match (List.range det.m_patterns.length).mapM
      (fun i => findPatternMatch env det st1.queryKeypoints
        st1.queryDescriptors i) with
  | none => none
  | some results => processResults env det grayImg st1 results info

/-- The per-image body of `PatternDetector::buildPatternsFromImages`
(`PatternDetector.cpp:44` to `PatternDetector.cpp:78`). -/
def buildPatternFromImage (env : Env Img) (image : Img) : Pattern :=
  let w : ℚ := ((env.dims image).1 : ℚ)
  let h : ℚ := ((env.dims image).2 : ℚ)
  let maxSize : ℚ := max w h
  let unitW : ℚ := w / maxSize
  let unitH : ℚ := h / maxSize
  { size := (w, h)
    points2d := [(0, 0), (w, 0), (w, h), (0, h)]
    points3d :=
      [⟨-unitW, -unitH, 0⟩, ⟨unitW, -unitH, 0⟩, ⟨unitW, unitH, 0⟩,
        ⟨-unitW, unitH, 0⟩]
    keypoints := (extractFeatures env (env.toGray image) [] []).2.1
    descriptors := (extractFeatures env (env.toGray image) [] []).2.2 }

/-- `PatternDetector::buildPatternsFromImages` (`PatternDetector.cpp:40`). -/
def buildPatternsFromImages (env : Env Img) (images : List Img) :
    List Pattern :=
  images.map fun image => buildPatternFromImage env image

/-- Running maximum of the match counts of slots whose homography was found,
started at `m` (the value `maxFound` holds at the end of the selection
loop). -/
def foldMax (m : ℕ) : List (Bool × ℕ) → ℕ
  | [] => m
  | p :: l => foldMax (if p.1 then max m p.2 else m) l

/-- Index of the first slot satisfying the predicate. -/
def firstIdx (p : Bool × ℕ → Bool) : List (Bool × ℕ) → Option ℕ
  | [] => none
  | x :: l => if p x then some 0 else (firstIdx p l).map (· + 1)

/-- Reformulation of the selection loop used to prove its characterisation:
`winner l m` is the final champion of the loop over `l` entered with running
maximum `m` (index relative to `l`). -/
def winner : List (Bool × ℕ) → ℕ → Option ℕ
  | [], _ => none
  | p :: l, m =>
    if p.1 = true ∧ m < p.2 then
      match winner l p.2 with
      | none => some 0
      | some j => some (j + 1)
    else (winner l m).map (· + 1)

/-- The selector exactly as claim C7 words it: among slots with
`homographyFound == true`, the first index attaining the largest match count;
`none` when no slot has a homography. -/
def selectSpecClaim (slots : List (Bool × ℕ)) : Option ℕ :=
  if slots.any (fun p => p.1) then
    firstIdx (fun p => p.1 && p.2 == foldMax 0 slots) slots
  else none

/-- The amended selector semantics: among slots with `homographyFound == true`
and a nonzero match count, the first index attaining the largest match count;
`none` when every found slot has zero matches (in particular when no slot was
found). -/
def selectSpecAmended (slots : List (Bool × ℕ)) : Option ℕ :=
  if foldMax 0 slots = 0 then none
  else firstIdx (fun p => p.1 && p.2 == foldMax 0 slots) slots

/-- Concrete one-bit descriptor used by the concrete evaluations below. -/
def dW : Desc := [true]

/-- A second concrete descriptor at Hamming distance 1 from `dW`. -/
def dF : Desc := [false]

/-- A concrete keypoint. -/
def kpW : KeyPoint := ⟨(0, 0)⟩

/-- Twenty-six identical keypoints: enough to pass the 25-match threshold. -/
def kps26 : List KeyPoint := List.replicate 26 kpW

/-- Twenty-six identical descriptors. -/
def descs26 : List Desc := List.replicate 26 dW

/-- The 26 matches that plain matching of `descs26` against the single trained
descriptor `dW` produces: query index i, train index 0, distance 0. -/
def ms26 : List DMatch := (List.range 26).map fun i => ⟨i, 0, 0⟩

/-- A robust-estimator stub that always succeeds with the identity transform
and an all-inlier mask of length 26. -/
def fHW : List (ℚ × ℚ) → List (ℚ × ℚ) → ℚ → Option M33 × List Bool :=
  fun _ _ _ => (some id3, List.replicate 26 true)

/-- A concrete pattern with one keypoint and one descriptor. -/
def patW : Pattern :=
  { size := (1, 1)
    points2d := [(0, 0), (1, 0), (1, 1), (0, 1)]
    points3d := []
    keypoints := [kpW]
    descriptors := [dW] }

/-- A trivial environment over a one-point image type: feature detection finds
nothing, the estimator fails. -/
def envU : Env Unit :=
  { dims := fun _ => (1, 1)
    toGray := fun i => i
    detect := fun _ => []
    compute := fun _ _ => ([], [])
    findHomography := fun _ _ _ => (none, [])
    warpPerspective := fun i _ _ => i
    perspectiveTransform := fun ps _ => ps }

/-- Environment whose single image is 2 pixels wide and 1 pixel high. -/
def envC1 : Env Unit := { envU with dims := fun _ => (2, 1) }

/-- Environment over `Bool` images (`false` = camera frame, `true` = the
warped view): the frame yields 26 features, the warped view yields none, and
the estimator always succeeds with identity and an all-inlier mask. -/
def envC8 : Env Bool :=
  { dims := fun _ => (1, 1)
    toGray := fun i => i
    detect := fun warped => if warped then [] else kps26
    compute := fun warped _ => if warped then ([], []) else (kps26, descs26)
    findHomography := fHW
    warpPerspective := fun _ _ _ => true
    perspectiveTransform := fun ps _ => ps }

/-- Environment where every extraction yields the same 26 features and the
estimator always succeeds: the whole pipeline, refinement included,
succeeds. -/
def envC9 : Env Unit :=
  { dims := fun _ => (1, 1)
    toGray := fun i => i
    detect := fun _ => kps26
    compute := fun _ _ => (kps26, descs26)
    findHomography := fHW
    warpPerspective := fun i _ _ => i
    perspectiveTransform := fun ps _ => ps }

/-- A detector trained on the single pattern `patW`, plain matching mode. -/
def detT : PatternDetector := (PatternDetector.init false).train [patW]

/-- A detector trained on one pattern holding two descriptors, ratio-test
mode. -/
def detC10 : PatternDetector :=
  (PatternDetector.init true).train
    [{ size := (1, 1), points2d := [], points3d := [],
       keypoints := [kpW, kpW], descriptors := [dW, dF] }]

/-- Scratch state after a frame that yielded 25 keypoints and descriptors was
processed and then a blank frame arrived: `m_queryKeypoints` was overwritten
to empty by `detect`, while `m_queryDescriptors` still holds the 25 stale
descriptors because `extractFeatures` returned early. -/
def stC4 : DState :=
  { queryKeypoints := [], queryDescriptors := List.replicate 25 dW,
    refinedHomography := none }

/-- An arbitrary initial value for the `info` output parameter. -/
def info0 : TrackingInfo := ⟨0, id3, []⟩

/-- The per-pattern result slots of a successful rough match of `detT`
against 26 query features. -/
def resultsC9 : List PerPatternResult := [⟨ms26, some id3, true⟩]

/-- Corner `i` of a pattern's normalized 3-D contour (defaulting to the
origin out of range). -/
def corner (pat : Pattern) (i : ℕ) : Pt3 := pat.points3d.getD i ⟨0, 0, 0⟩

theorem maskFilter_sublist :
    ∀ (l : List DMatch) (mask : List Bool), (maskFilter l mask).Sublist l := by
  intro l
  induction l with
  | nil =>
    intro mask
    exact (show maskFilter [] mask = [] from rfl) ▸ List.nil_sublist []
  | cons a l ih =>
    intro mask
    cases mask with
    | nil => exact (show maskFilter (a :: l) [] = [] from rfl) ▸ List.nil_sublist _
    | cons b mask =>
      cases b with
      | false =>
        exact (show maskFilter (a :: l) (false :: mask) = maskFilter l mask from
          rfl) ▸ (ih mask).cons a
      | true =>
        exact (show maskFilter (a :: l) (true :: mask) = a :: maskFilter l mask from
          rfl) ▸ (ih mask).cons₂ a

/-- C5: with fewer than 25 correspondences, `refineMatchesWithHomography`
reports failure and leaves the match list (and the homography output)
completely unmodified. -/
theorem C5_reject_unchanged
    (fH : List (ℚ × ℚ) → List (ℚ × ℚ) → ℚ → Option M33 × List Bool)
    (queryKeypoints trainKeypoints : List KeyPoint) (thr : ℚ)
    (matchList : List DMatch) (homographyIn : Option M33)
    (h : matchList.length < minNumberMatchesAllowed) :
    refineMatchesWithHomography fH queryKeypoints trainKeypoints thr matchList
      homographyIn = some (false, matchList, homographyIn) := by
  simp [refineMatchesWithHomography, h]

theorem C5_witness :
    ([] : List DMatch).length < minNumberMatchesAllowed ∧
    refineMatchesWithHomography fHW [] [] 3 [] none = some (false, [], none) :=
  ⟨by decide, C5_reject_unchanged fHW [] [] 3 [] none (by decide)⟩

/-- C6: with at least 25 correspondences, whenever
`refineMatchesWithHomography` returns, the new match list is a sub-sequence
(subset by identity) of the input — hence no longer than it — and the call
reports success exactly when the inlier count strictly exceeds 25. -/
theorem C6_inlier_subset
    (fH : List (ℚ × ℚ) → List (ℚ × ℚ) → ℚ → Option M33 × List Bool)
    (queryKeypoints trainKeypoints : List KeyPoint) (thr : ℚ)
    (matchList : List DMatch) (homographyIn : Option M33)
    (found : Bool) (out : List DMatch) (homOut : Option M33)
    (hlen : minNumberMatchesAllowed ≤ matchList.length)
    (heq : refineMatchesWithHomography fH queryKeypoints trainKeypoints thr
      matchList homographyIn = some (found, out, homOut)) :
    out.Sublist matchList ∧ out.length ≤ matchList.length ∧
      (found = true ↔ minNumberMatchesAllowed < out.length) := by
  unfold refineMatchesWithHomography at heq
  rw [if_neg (by omega)] at heq
  dsimp only at heq
  split at heq
  next srcPoints dstPoints hsrc hdst =>
    split at heq
    next hmask =>
      simp only [Option.some.injEq, Prod.mk.injEq] at heq
      obtain ⟨hfound, hout, -⟩ := heq
      subst hout
      refine ⟨maskFilter_sublist _ _, (maskFilter_sublist _ _).length_le, ?_⟩
      subst hfound
      simp
    next => exact absurd heq (by simp)
  next => exact absurd heq (by simp)

theorem C6_witness :
    ms26.Sublist ms26 ∧ ms26.length ≤ ms26.length ∧
      (true = true ↔ minNumberMatchesAllowed < ms26.length) :=
  C6_inlier_subset fHW kps26 [kpW] 3 ms26 none true ms26 (some id3)
    (by decide) (by decide)

theorem le_foldMax : ∀ (l : List (Bool × ℕ)) (m : ℕ), m ≤ foldMax m l := by
  intro l
  induction l with
  | nil => intro m; exact le_rfl
  | cons p l ih =>
    intro m
    refine le_trans ?_ (ih (if p.1 then max m p.2 else m))
    split
    · exact le_max_left _ _
    · exact le_rfl

theorem foldMax_attained : ∀ (l : List (Bool × ℕ)) (m : ℕ), foldMax m l ≠ m →
    ∃ p ∈ l, p.1 = true ∧ p.2 = foldMax m l := by
  intro l
  induction l with
  | nil => intro m h; exact absurd rfl h
  | cons p l ih =>
    intro m h
    by_cases hp : p.1 = true
    · have hfold : foldMax m (p :: l) = foldMax (max m p.2) l := by
        show foldMax (if p.1 then max m p.2 else m) l = _
        rw [if_pos hp]
      by_cases hrec : foldMax (max m p.2) l = max m p.2
      · rw [hfold, hrec] at h ⊢
        have hmax : max m p.2 = p.2 := by
          rcases max_cases m p.2 with ⟨he, _⟩ | ⟨he, _⟩
          · exact absurd he h
          · exact he
        exact ⟨p, List.mem_cons_self p l, hp, hmax.symm⟩
      · obtain ⟨q, hq, hq1, hq2⟩ := ih (max m p.2) hrec
        exact ⟨q, List.mem_cons_of_mem p hq, hq1, by rw [hfold]; exact hq2⟩
    · have hfold : foldMax m (p :: l) = foldMax m l := by
        show foldMax (if p.1 then max m p.2 else m) l = _
        rw [if_neg hp]
      rw [hfold] at h ⊢
      obtain ⟨q, hq, hq1, hq2⟩ := ih m h
      exact ⟨q, List.mem_cons_of_mem p hq, hq1, hq2⟩

theorem firstIdx_isSome : ∀ (l : List (Bool × ℕ)) (pr : Bool × ℕ → Bool),
    (∃ x ∈ l, pr x = true) → ∃ j, firstIdx pr l = some j := by
  intro l pr
  induction l with
  | nil =>
    rintro ⟨x, hx, -⟩
    exact absurd hx (List.not_mem_nil x)
  | cons a l ih =>
    rintro ⟨x, hx, hpx⟩
    by_cases ha : pr a = true
    · exact ⟨0, by simp [firstIdx, ha]⟩
    · rcases List.mem_cons.mp hx with rfl | hx2
      · exact absurd hpx ha
      · obtain ⟨j, hj⟩ := ih ⟨x, hx2, hpx⟩
        exact ⟨j + 1, by simp [firstIdx, ha, hj]⟩

theorem selectGo_eq : ∀ (l : List (Bool × ℕ)) (i maxFound : ℕ) (best : Option ℕ),
    selectGo l i maxFound best =
      match winner l maxFound with
      | none => best
      | some j => some (i + j) := by
  intro l
  induction l with
  | nil => intro i m best; rfl
  | cons p l ih =>
    intro i m best
    by_cases hc : p.1 = true ∧ m < p.2
    · have h1 : selectGo (p :: l) i m best = selectGo l (i + 1) p.2 (some i) := by
        show (if p.1 = true ∧ m < p.2 then _ else _) = _
        rw [if_pos hc]
      have h2 : winner (p :: l) m =
          (match winner l p.2 with | none => some 0 | some j => some (j + 1)) := by
        show (if p.1 = true ∧ m < p.2 then _ else _) = _
        rw [if_pos hc]
      rw [h1, ih, h2]
      cases winner l p.2 with
      | none => simp
      | some j =>
        show some (i + 1 + j) = some (i + (j + 1))
        congr 1
        omega
    · have h1 : selectGo (p :: l) i m best = selectGo l (i + 1) m best := by
        show (if p.1 = true ∧ m < p.2 then _ else _) = _
        rw [if_neg hc]
      have h2 : winner (p :: l) m = (winner l m).map (· + 1) := by
        show (if p.1 = true ∧ m < p.2 then _ else _) = _
        rw [if_neg hc]
      rw [h1, ih, h2]
      cases winner l m with
      | none => rfl
      | some j =>
        show some (i + 1 + j) = some (i + (j + 1))
        congr 1
        omega

theorem winner_spec : ∀ (l : List (Bool × ℕ)) (m : ℕ),
    winner l m =
      if foldMax m l = m then none
      else firstIdx (fun p => p.1 && p.2 == foldMax m l) l := by
  intro l
  induction l with
  | nil => intro m; simp [winner, foldMax]
  | cons p l ih =>
    intro m
    by_cases hc : p.1 = true ∧ m < p.2
    · have hfold : foldMax m (p :: l) = foldMax p.2 l := by
        show foldMax (if p.1 then max m p.2 else m) l = _
        rw [hc.1, if_pos rfl, max_eq_right hc.2.le]
      have hW : winner (p :: l) m =
          (match winner l p.2 with | none => some 0 | some j => some (j + 1)) := by
        show (if p.1 = true ∧ m < p.2 then _ else _) = _
        rw [if_pos hc]
      have hple : p.2 ≤ foldMax p.2 l := le_foldMax l p.2
      rw [hW, ih]
      by_cases hrec : foldMax p.2 l = p.2
      · rw [if_pos hrec, hfold, hrec]
        have hne : ¬ (p.2 = m) := by omega
        rw [if_neg hne]
        show some 0 = firstIdx _ (p :: l)
        simp [firstIdx, hc.1]
      · rw [if_neg hrec, hfold]
        have hlt : p.2 < foldMax p.2 l := lt_of_le_of_ne hple (fun h => hrec h.symm)
        have hne : ¬ (foldMax p.2 l = m) := by omega
        rw [if_neg hne]
        have hpred : (fun q : Bool × ℕ => q.1 && q.2 == foldMax p.2 l) p = false := by
          simp only [Bool.and_eq_false_iff]
          right
          simp only [beq_eq_false_iff_ne, ne_eq]
          omega
        obtain ⟨x, hx, hx1, hx2⟩ := foldMax_attained l p.2 hrec
        have hxp : (fun q : Bool × ℕ => q.1 && q.2 == foldMax p.2 l) x = true := by
          show (x.1 && x.2 == foldMax p.2 l) = true
          rw [hx1, hx2]
          simp
        obtain ⟨j, hj⟩ :=
          firstIdx_isSome l (fun q => q.1 && q.2 == foldMax p.2 l) ⟨x, hx, hxp⟩
        rw [hj]
        show some (j + 1) = firstIdx _ (p :: l)
        simp [firstIdx, hpred, hj]
    · have hinit : (if p.1 then max m p.2 else m) = m := by
        by_cases hp : p.1 = true
        · rw [if_pos hp]
          have : p.2 ≤ m := by
            rcases Nat.lt_or_ge m p.2 with h | h
            · exact absurd ⟨hp, h⟩ hc
            · exact h
          exact max_eq_left this
        · rw [if_neg hp]
      have hfold : foldMax m (p :: l) = foldMax m l := by
        show foldMax (if p.1 then max m p.2 else m) l = _
        rw [hinit]
      have hW : winner (p :: l) m = (winner l m).map (· + 1) := by
        show (if p.1 = true ∧ m < p.2 then _ else _) = _
        rw [if_neg hc]
      have hmle : m ≤ foldMax m l := le_foldMax l m
      rw [hW, ih, hfold]
      by_cases hrec : foldMax m l = m
      · rw [if_pos hrec, if_pos hrec]
        rfl
      · rw [if_neg hrec, if_neg hrec]
        have hlt : m < foldMax m l := lt_of_le_of_ne hmle (fun h => hrec h.symm)
        have hpred : (fun q : Bool × ℕ => q.1 && q.2 == foldMax m l) p = false := by
          by_cases hp : p.1 = true
          · have hple2 : p.2 ≤ m := by
              rcases Nat.lt_or_ge m p.2 with h | h
              · exact absurd ⟨hp, h⟩ hc
              · exact h
            simp only [Bool.and_eq_false_iff]
            right
            simp only [beq_eq_false_iff_ne, ne_eq]
            omega
          · simp only [Bool.and_eq_false_iff]
            left
            exact Bool.not_eq_true p.1 ▸ (by simpa using hp)
        obtain ⟨x, hx, hx1, hx2⟩ := foldMax_attained l m hrec
        have hxp : (fun q : Bool × ℕ => q.1 && q.2 == foldMax m l) x = true := by
          show (x.1 && x.2 == foldMax m l) = true
          rw [hx1, hx2]
          simp
        obtain ⟨j, hj⟩ :=
          firstIdx_isSome l (fun q => q.1 && q.2 == foldMax m l) ⟨x, hx, hxp⟩
        rw [hj]
        show Option.map _ (some j) = firstIdx _ (p :: l)
        simp [firstIdx, hpred, hj]

theorem selectBest_eq_amended : ∀ slots, selectBest slots = selectSpecAmended slots := by
  intro slots
  rw [selectBest, selectGo_eq, winner_spec]
  unfold selectSpecAmended
  by_cases h0 : foldMax 0 slots = 0
  · rw [if_pos h0]
  · rw [if_neg h0]
    cases firstIdx (fun p => p.1 && p.2 == foldMax 0 slots) slots with
    | none => rfl
    | some j =>
      show some (0 + j) = some j
      rw [Nat.zero_add]

/-- C7 counterexample: the claim says that among slots with
`homographyFound == true` the selector picks the first index with the largest
match count — on the slot list `[(true, 0)]` that would be index 0, but the
loop (with `maxFound` starting at 0 and a strict comparison) selects
nothing. -/
theorem C7_counterexample :
    selectBest [(true, 0)] = none ∧ selectSpecClaim [(true, 0)] = some 0 :=
  ⟨rfl, rfl⟩

/-- C7 (amended): the selection loop scans the slots in store order and picks,
among slots with `homographyFound == true` and at least one match, the first
index attaining the strictly largest match count (`selectSpecAmended`); and
when it picks nothing (in particular when no slot has
`homographyFound == true`) the result-processing half of `findPattern`
reports failure with the `info` output untouched. -/
theorem C7_selector_amended :
    (∀ slots, selectBest slots = selectSpecAmended slots) ∧
    (∀ (Img : Type) (env : Env Img) (det : PatternDetector) (grayImg : Img)
      (st1 : DState) (results : List PerPatternResult) (info : TrackingInfo),
      selectBest (results.map fun r => (r.homographyFound, r.matchList.length)) =
        none →
      processResults env det grayImg st1 results info = some (false, info, st1)) := by
  constructor
  · exact selectBest_eq_amended
  · intro Img env det grayImg st1 results info hsel
    unfold processResults
    rw [hsel]

theorem C7_witness :
    processResults envU (PatternDetector.init true) () DState.init [] info0 =
      some (false, info0, DState.init) :=
  C7_selector_amended.2 Unit envU (PatternDetector.init true) () DState.init []
    info0 rfl

/-- C3 counterexample: on a freshly constructed, never-trained detector,
`findPattern` does not fail loudly — it returns normally with
`found = false` and the `info` output untouched (the per-pattern loop body
never runs, so no matcher is ever accessed). -/
theorem C3_counterexample :
    findPattern envU (PatternDetector.init true) DState.init () info0 =
      some (false, info0, DState.init) := rfl

/-- C3 (amended): calling `findPattern` before any `train` (empty pattern
store and matcher array, as the constructor leaves them) is silently
tolerated: for every environment, scratch state and frame it returns
normally with `found = false`, never touching a matcher. -/
theorem C3_untrained_returns_false (Img : Type) (env : Env Img)
    (ratioTest : Bool) (st : DState) (image : Img) (info : TrackingInfo) :
    ∃ st2, findPattern env (PatternDetector.init ratioTest) st image info =
      some (false, info, st2) :=
  ⟨_, rfl⟩

/-- C4: evaluation at the failing input.  The detector is trained on one
pattern and its scratch `m_queryDescriptors` still holds 25 descriptors from
a previous frame; the new frame yields zero keypoints, `extractFeatures`'
`false` return is ignored (`PatternDetector.cpp:172`), the stale descriptors
produce 25 matches, and `refineMatchesWithHomography` then indexes the empty
`m_queryKeypoints` vector out of range (`PatternDetector.cpp:339`) — the
model reports the undefined behaviour as `none` instead of the
`found = false` the claim promises. -/
theorem C4_stale_descriptors_crash :
    findPattern envU detT stC4 () info0 = none := by decide

/-- C8: evaluation at the failing input.  The rough stage succeeds (26
matches against pattern 0), refinement is enabled, the warped view yields no
features, so the refinement-stage estimation fails on fewer than 25 matches
and returns early without writing its homography output; `m_refinedHomography`
was never written before (fresh detector), so `info.homography =
m_roughHomography * m_refinedHomography` (`PatternDetector.cpp:240`)
multiplies by an empty matrix — the model reports the thrown OpenCV error as
`none` instead of the `found = false` the claim promises. -/
theorem C8_refinement_failure_crash :
    findPattern envC8 detT DState.init false info0 = none := by decide

/-- C9: whenever the result-processing half of `findPattern` returns success,
a slot was selected with a rough homography; with refinement enabled the
output homography is the matrix product `rough × refinement` (rough on the
left) and the output corners are the pattern's reference corners transformed
through that product; with refinement disabled the output homography is the
rough one and the corners are transformed through it directly. -/
theorem C9_homography_composition (Img : Type) (env : Env Img)
    (det : PatternDetector) (grayImg : Img) (st1 : DState)
    (results : List PerPatternResult) (info : TrackingInfo)
    (b : Bool) (info2 : TrackingInfo) (st2 : DState)
    (heq : processResults env det grayImg st1 results info = some (b, info2, st2))
    (hb : b = true) :
    ∃ maxFoundIdx r pattern roughHomography,
      selectBest (results.map fun r => (r.homographyFound, r.matchList.length)) =
        some maxFoundIdx ∧
      results.get? maxFoundIdx = some r ∧
      det.m_patterns.get? maxFoundIdx = some pattern ∧
      r.homography = some roughHomography ∧
      (det.enableHomographyRefinement = true →
        ∃ refinedHomography, st2.refinedHomography = some refinedHomography ∧
          info2.homography = matMul roughHomography refinedHomography ∧
          info2.points2d = env.perspectiveTransform pattern.points2d
            (matMul roughHomography refinedHomography)) ∧
      (det.enableHomographyRefinement = false →
        info2.homography = roughHomography ∧
        info2.points2d = env.perspectiveTransform pattern.points2d
          roughHomography) := by
  unfold processResults at heq
  split at heq
  next hsel =>
    exfalso
    simp only [Option.some.injEq, Prod.mk.injEq] at heq
    rw [hb] at heq
    exact Bool.false_ne_true heq.1
  next maxFoundIdx hsel =>
    split at heq
    next r pattern hr hpat =>
      split at heq
      next hhom => exact absurd heq (by simp)
      next roughHomography hhom =>
        split at heq
        next href =>
          split at heq
          next htd => exact absurd heq (by simp)
          next trainDescriptors htd =>
            dsimp only at heq
            split at heq
            next hgm => exact absurd heq (by simp)
            next refinedMatches hgm =>
              split at heq
              next hrf => exact absurd heq (by simp)
              next found2 inl refinedOpt hrf =>
                split at heq
                next hro => exact absurd heq (by simp)
                next refinedHomography hro =>
                  simp only [Option.some.injEq, Prod.mk.injEq] at heq
                  obtain ⟨hfound, hinfo, hst⟩ := heq
                  refine ⟨maxFoundIdx, r, pattern, roughHomography, hsel, hr, hpat,
                    hhom, ?_, ?_⟩
                  · intro _
                    refine ⟨hro, ?_, ?_, ?_⟩
                    · rw [← hst]
                    · rw [← hinfo]
                    · rw [← hinfo]
                  · intro hfalse
                    rw [href] at hfalse
                    exact absurd hfalse (by simp)
        next href =>
          simp only [Option.some.injEq, Prod.mk.injEq] at heq
          obtain ⟨hfound, hinfo, hst⟩ := heq
          refine ⟨maxFoundIdx, r, pattern, roughHomography, hsel, hr, hpat,
            hhom, ?_, ?_⟩
          · intro htrue
            exact absurd htrue href
          · intro _
            exact ⟨by rw [← hinfo], by rw [← hinfo]⟩
    next h1 h2 => exact absurd heq (by simp)

theorem C9_witness :
    ∃ maxFoundIdx r pattern roughHomography,
      selectBest (resultsC9.map fun r => (r.homographyFound, r.matchList.length)) =
        some maxFoundIdx ∧
      resultsC9.get? maxFoundIdx = some r ∧
      detT.m_patterns.get? maxFoundIdx = some pattern ∧
      r.homography = some roughHomography ∧
      (detT.enableHomographyRefinement = true →
        ∃ refinedHomography,
          (DState.mk [] [] (some id3)).refinedHomography = some refinedHomography ∧
          (TrackingInfo.mk 0 (matMul id3 id3) patW.points2d).homography =
            matMul roughHomography refinedHomography ∧
          (TrackingInfo.mk 0 (matMul id3 id3) patW.points2d).points2d =
            envC9.perspectiveTransform pattern.points2d
              (matMul roughHomography refinedHomography)) ∧
      (detT.enableHomographyRefinement = false →
        (TrackingInfo.mk 0 (matMul id3 id3) patW.points2d).homography =
          roughHomography ∧
        (TrackingInfo.mk 0 (matMul id3 id3) patW.points2d).points2d =
          envC9.perspectiveTransform pattern.points2d roughHomography) :=
  C9_homography_composition Unit envC9 detT () DState.init resultsC9 info0
    true (TrackingInfo.mk 0 (matMul id3 id3) patW.points2d)
    (DState.mk [] [] (some id3)) rfl rfl

theorem candidates_nonneg (trainDescriptors : List Desc) (q : Desc) :
    ∀ c ∈ candidates trainDescriptors q, 0 ≤ c.2 := by
  intro c hc
  unfold candidates at hc
  obtain ⟨jd, hjd, rfl⟩ := List.mem_map.mp hc
  show (0 : ℚ) ≤ distQ q jd.2
  unfold distQ
  exact Nat.cast_nonneg _

theorem order2_sorted (c0 c1 : ℕ × ℚ) (h0 : 0 ≤ c0.2) (h1 : 0 ≤ c1.2) :
    0 ≤ (order2 c0 c1).1.2 ∧ (order2 c0 c1).1.2 ≤ (order2 c0 c1).2.2 := by
  unfold order2
  by_cases h : c1.2 < c0.2
  · rw [if_pos h]
    exact ⟨h1, h.le⟩
  · rw [if_neg h]
    exact ⟨h0, le_of_not_lt h⟩

theorem knnFold_sorted : ∀ (l : List (ℕ × ℚ)) (bs : (ℕ × ℚ) × (ℕ × ℚ)),
    (∀ x ∈ l, 0 ≤ x.2) → 0 ≤ bs.1.2 → bs.1.2 ≤ bs.2.2 →
    0 ≤ (l.foldl knnStep bs).1.2 ∧
      (l.foldl knnStep bs).1.2 ≤ (l.foldl knnStep bs).2.2 := by
  intro l
  induction l with
  | nil => intro bs _ h1 h2; exact ⟨h1, h2⟩
  | cons x l ih =>
    intro bs hl h1 h2
    have hx : 0 ≤ x.2 := hl x (List.mem_cons_self x l)
    have hl2 : ∀ y ∈ l, 0 ≤ y.2 := fun y hy => hl y (List.mem_cons_of_mem x hy)
    rw [List.foldl_cons]
    by_cases hA : x.2 < bs.1.2
    · rw [show knnStep bs x = (x, bs.1) from by unfold knnStep; rw [if_pos hA]]
      exact ih (x, bs.1) hl2 hx hA.le
    · by_cases hB : x.2 < bs.2.2
      · rw [show knnStep bs x = (bs.1, x) from by
          unfold knnStep; rw [if_neg hA, if_pos hB]]
        exact ih (bs.1, x) hl2 h1 (le_of_not_lt hA)
      · rw [show knnStep bs x = bs from by unfold knnStep; rw [if_neg hA, if_neg hB]]
        exact ih bs hl2 h1 h2

theorem knn2_sorted (trainDescriptors : List Desc) (q : Desc) (b s : ℕ × ℚ)
    (h : knn2 trainDescriptors q = some (b, s)) : 0 ≤ b.2 ∧ b.2 ≤ s.2 := by
  unfold knn2 at h
  split at h
  next c0 c1 rest hcand =>
    have hmem : ∀ x ∈ candidates trainDescriptors q, 0 ≤ x.2 :=
      candidates_nonneg trainDescriptors q
    have h0 : 0 ≤ c0.2 := hmem c0 (by rw [hcand]; exact List.mem_cons_self _ _)
    have h1 : 0 ≤ c1.2 := hmem c1 (by rw [hcand]; simp)
    have hrest : ∀ x ∈ rest, 0 ≤ x.2 := fun x hx => hmem x (by rw [hcand]; simp [hx])
    obtain ⟨ho1, ho2⟩ := order2_sorted c0 c1 h0 h1
    have hfold := knnFold_sorted rest (order2 c0 c1) hrest ho1 ho2
    simp only [Option.some.injEq] at h
    rw [h] at hfold
    exact hfold
  next => exact absurd h (by simp)

/-- C2 counterexample: when the best and the second-best distance are both
zero (the query descriptor coincides with two trained descriptors), the
computed distance ratio is NaN — the claim says it never is. -/
theorem C2_counterexample : ratioList [dW, dW] [dW] = some [FVal.nan] := by decide

/-- C2 (amended): the inverted-ratio formulation divides by the larger
distance, so the computed ratio is never infinite and is NaN exactly when
both distances are zero; in that case the IEEE comparison `NaN < minRatio`
is false, so the ratio test rejects the match rather than propagating a
non-finite value.  In particular a zero best-distance with a nonzero
second-best yields the finite ratio 0. -/
theorem C2_ratio_nan_amended (trainDescriptors : List Desc) (q : Desc)
    (b s : ℕ × ℚ) (h : knn2 trainDescriptors q = some (b, s)) :
    (fdivF b.2 s.2 = FVal.nan ↔ (b.2 = 0 ∧ s.2 = 0)) ∧
    fdivF b.2 s.2 ≠ FVal.inf ∧
    (fdivF b.2 s.2 = FVal.nan →
      fvalLt (fdivF b.2 s.2) minRatioThreshold = false) := by
  obtain ⟨h0, hbs⟩ := knn2_sorted trainDescriptors q b s h
  by_cases hs : s.2 = 0
  · have hb0 : b.2 = 0 := le_antisymm (hs ▸ hbs) h0
    have hval : fdivF b.2 s.2 = FVal.nan := by
      unfold fdivF
      rw [if_neg (by rw [hs]; exact not_not_intro rfl), if_pos hb0]
    refine ⟨⟨fun _ => ⟨hb0, hs⟩, fun _ => hval⟩, ?_, ?_⟩
    · rw [hval]
      exact fun hcon => FVal.noConfusion hcon
    · intro _
      rw [hval]
      rfl
  · have hval : fdivF b.2 s.2 = FVal.fin (b.2 / s.2) := by
      unfold fdivF
      rw [if_pos hs]
    refine ⟨⟨?_, ?_⟩, ?_, ?_⟩
    · intro hcon
      rw [hval] at hcon
      exact absurd hcon (fun hcon2 => FVal.noConfusion hcon2)
    · rintro ⟨-, hs0⟩
      exact absurd hs0 hs
    · rw [hval]
      exact fun hcon => FVal.noConfusion hcon
    · intro hcon
      rw [hval] at hcon
      exact absurd hcon (fun hcon2 => FVal.noConfusion hcon2)

theorem C2_witness :
    (fdivF 0 0 = FVal.nan ↔ ((0 : ℚ) = 0 ∧ (0 : ℚ) = 0)) ∧
    fdivF 0 0 ≠ FVal.inf ∧
    (fdivF 0 0 = FVal.nan → fvalLt (fdivF 0 0) minRatioThreshold = false) :=
  C2_ratio_nan_amended [dW, dW] dW (0, 0) (1, 0) (by decide)

theorem candidates_length (trainDescriptors : List Desc) (q : Desc) :
    (candidates trainDescriptors q).length = trainDescriptors.length := by
  unfold candidates
  rw [List.length_map, List.enum_length]

theorem knn2_isSome (trainDescriptors : List Desc) (q : Desc)
    (h2 : 2 ≤ trainDescriptors.length) : ∃ bs, knn2 trainDescriptors q = some bs := by
  have hlen : 2 ≤ (candidates trainDescriptors q).length := by
    rw [candidates_length]
    exact h2
  unfold knn2
  rcases hc : candidates trainDescriptors q with - | ⟨c0, - | ⟨c1, rest⟩⟩
  · rw [hc] at hlen
    simp at hlen
  · rw [hc] at hlen
    simp at hlen
  · exact ⟨_, rfl⟩

theorem ratioPass_total (trainDescriptors : List Desc)
    (h2 : 2 ≤ trainDescriptors.length) :
    ∀ l : List (ℕ × Desc), ∃ out, ratioPass trainDescriptors l = some out ∧
      out.length ≤ l.length := by
  intro l
  induction l with
  | nil => exact ⟨[], rfl, le_rfl⟩
  | cons iq rest ih =>
    obtain ⟨out, hout, hlen⟩ := ih
    obtain ⟨bs, hbs⟩ := knn2_isSome trainDescriptors iq.2 h2
    have hstep : ratioPass trainDescriptors (iq :: rest) =
        if fvalLt (fdivF bs.1.2 bs.2.2) minRatioThreshold then
          some (⟨iq.1, bs.1.1, bs.1.2⟩ :: out)
        else some out := by
      unfold ratioPass
      rw [hbs, hout]
    by_cases hk : fvalLt (fdivF bs.1.2 bs.2.2) minRatioThreshold = true
    · rw [hstep, if_pos hk]
      exact ⟨_, rfl, by simpa using Nat.succ_le_succ hlen⟩
    · rw [hstep, if_neg hk]
      exact ⟨out, rfl, Nat.le_succ_of_le hlen⟩

theorem plainMatches_length (trainDescriptors : List Desc)
    (h1 : 1 ≤ trainDescriptors.length) :
    ∀ l : List (ℕ × Desc),
      (l.filterMap fun iq => (bestOf (candidates trainDescriptors iq.2)).map
        fun b => (⟨iq.1, b.1, b.2⟩ : DMatch)).length = l.length := by
  intro l
  induction l with
  | nil => rfl
  | cons iq rest ih =>
    have hBsome : ∃ bb, bestOf (candidates trainDescriptors iq.2) = some bb := by
      have hlen : 1 ≤ (candidates trainDescriptors iq.2).length := by
        rw [candidates_length]
        exact h1
      rcases hc : candidates trainDescriptors iq.2 with - | ⟨c0, rest2⟩
      · rw [hc] at hlen
        simp at hlen
      · exact ⟨_, rfl⟩
    obtain ⟨bb, hbb⟩ := hBsome
    simp [List.filterMap_cons, hbb, ih]

/-- C10: on the same query descriptors and the same trained pattern matcher
(with at least two trained descriptors, as the k = 2 knn access requires),
ratio-test matching succeeds with at most as many matches as plain nearest
matching produces. -/
theorem C10_ratio_monotone (det : PatternDetector) (patternIdx : ℕ)
    (trainDescriptors queryDescriptors : List Desc)
    (_htrain : det.m_matchers.get? patternIdx = some trainDescriptors)
    (h2 : 2 ≤ trainDescriptors.length) :
    ∃ mr mp, getMatches true trainDescriptors queryDescriptors = some mr ∧
      getMatches false trainDescriptors queryDescriptors = some mp ∧
      mr.length ≤ mp.length := by
  obtain ⟨mr, hmr, hmrlen⟩ :=
    ratioPass_total trainDescriptors h2 queryDescriptors.enum
  refine ⟨mr, _, hmr, rfl, ?_⟩
  rw [plainMatches_length trainDescriptors (by omega) queryDescriptors.enum]
  exact hmrlen

theorem C10_witness :
    ∃ mr mp, getMatches true [dW, dF] [dW] = some mr ∧
      getMatches false [dW, dF] [dW] = some mp ∧ mr.length ≤ mp.length :=
  C10_ratio_monotone detC10 0 [dW, dF] [dW] (by decide) (by decide)

/-- C1 counterexample: for a 2-by-1 image the first two normalized corners
are `(-1, -1/2)` and `(1, -1/2)`: they span a horizontal side of length 2,
so the longest side of the rectangle is not 1 as the claim states. -/
theorem C1_counterexample :
    (corner (buildPatternFromImage envC1 ()) 1).x -
      (corner (buildPatternFromImage envC1 ()) 0).x = 2 ∧
    (corner (buildPatternFromImage envC1 ()) 1).y =
      (corner (buildPatternFromImage envC1 ()) 0).y ∧
    (corner (buildPatternFromImage envC1 ()) 0).z = 0 ∧
    (corner (buildPatternFromImage envC1 ()) 1).z = 0 ∧
    (2 : ℚ) ≠ 1 := by
  have hpts : (buildPatternFromImage envC1 ()).points3d =
      [⟨-1, -(1/2), 0⟩, ⟨1, -(1/2), 0⟩, ⟨1, 1/2, 0⟩, ⟨-1, 1/2, 0⟩] := by
    norm_num [buildPatternFromImage, envC1, envU]
  refine ⟨?_, ?_, ?_, ?_, by norm_num⟩ <;>
    · unfold corner
      rw [hpts]
      norm_num

/-- C1 (amended): every pattern built from a w-by-h image (w, h ≥ 1) has its
four `points3d` corners on the plane z = 0, forming an axis-aligned rectangle
centered at the origin with aspect ratio w/h — and the longest side has
length exactly 2, not 1: the code normalizes the half-extents `unitW`,
`unitH` so the larger half-extent is 1. -/
theorem C1_points3d_amended (Img : Type) (env : Env Img) (image : Img)
    (cols rows : ℕ) (hdims : env.dims image = (cols, rows))
    (hcols : 1 ≤ cols) (hrows : 1 ≤ rows) :
    (buildPatternFromImage env image).points3d.length = 4 ∧
    (∀ p ∈ (buildPatternFromImage env image).points3d, p.z = 0) ∧
    (corner (buildPatternFromImage env image) 0).y =
      (corner (buildPatternFromImage env image) 1).y ∧
    (corner (buildPatternFromImage env image) 1).x =
      (corner (buildPatternFromImage env image) 2).x ∧
    (corner (buildPatternFromImage env image) 2).y =
      (corner (buildPatternFromImage env image) 3).y ∧
    (corner (buildPatternFromImage env image) 3).x =
      (corner (buildPatternFromImage env image) 0).x ∧
    (corner (buildPatternFromImage env image) 0).x +
      (corner (buildPatternFromImage env image) 2).x = 0 ∧
    (corner (buildPatternFromImage env image) 0).y +
      (corner (buildPatternFromImage env image) 2).y = 0 ∧
    (corner (buildPatternFromImage env image) 1).x +
      (corner (buildPatternFromImage env image) 3).x = 0 ∧
    (corner (buildPatternFromImage env image) 1).y +
      (corner (buildPatternFromImage env image) 3).y = 0 ∧
    0 < (corner (buildPatternFromImage env image) 1).x -
      (corner (buildPatternFromImage env image) 0).x ∧
    0 < (corner (buildPatternFromImage env image) 3).y -
      (corner (buildPatternFromImage env image) 0).y ∧
    ((corner (buildPatternFromImage env image) 1).x -
      (corner (buildPatternFromImage env image) 0).x) * (rows : ℚ) =
      ((corner (buildPatternFromImage env image) 3).y -
        (corner (buildPatternFromImage env image) 0).y) * (cols : ℚ) ∧
    max ((corner (buildPatternFromImage env image) 1).x -
        (corner (buildPatternFromImage env image) 0).x)
      ((corner (buildPatternFromImage env image) 3).y -
        (corner (buildPatternFromImage env image) 0).y) = 2 := by
  have hcq : (0 : ℚ) < (cols : ℚ) := by
    have hcn : 0 < cols := by omega
    exact_mod_cast hcn
  have hrq : (0 : ℚ) < (rows : ℚ) := by
    have hrn : 0 < rows := by omega
    exact_mod_cast hrn
  have hM : (0 : ℚ) < max (cols : ℚ) (rows : ℚ) := lt_max_of_lt_left hcq
  have hMne : max (cols : ℚ) (rows : ℚ) ≠ 0 := ne_of_gt hM
  have hpat : (buildPatternFromImage env image).points3d =
      [⟨-((cols : ℚ) / max (cols : ℚ) (rows : ℚ)),
          -((rows : ℚ) / max (cols : ℚ) (rows : ℚ)), 0⟩,
        ⟨(cols : ℚ) / max (cols : ℚ) (rows : ℚ),
          -((rows : ℚ) / max (cols : ℚ) (rows : ℚ)), 0⟩,
        ⟨(cols : ℚ) / max (cols : ℚ) (rows : ℚ),
          (rows : ℚ) / max (cols : ℚ) (rows : ℚ), 0⟩,
        ⟨-((cols : ℚ) / max (cols : ℚ) (rows : ℚ)),
          (rows : ℚ) / max (cols : ℚ) (rows : ℚ), 0⟩] := by
    simp [buildPatternFromImage, hdims]
  have hcor0 : corner (buildPatternFromImage env image) 0 =
      ⟨-((cols : ℚ) / max (cols : ℚ) (rows : ℚ)),
        -((rows : ℚ) / max (cols : ℚ) (rows : ℚ)), 0⟩ := by
    unfold corner
    rw [hpat]
    rfl
  have hcor1 : corner (buildPatternFromImage env image) 1 =
      ⟨(cols : ℚ) / max (cols : ℚ) (rows : ℚ),
        -((rows : ℚ) / max (cols : ℚ) (rows : ℚ)), 0⟩ := by
    unfold corner
    rw [hpat]
    rfl
  have hcor2 : corner (buildPatternFromImage env image) 2 =
      ⟨(cols : ℚ) / max (cols : ℚ) (rows : ℚ),
        (rows : ℚ) / max (cols : ℚ) (rows : ℚ), 0⟩ := by
    unfold corner
    rw [hpat]
    rfl
  have hcor3 : corner (buildPatternFromImage env image) 3 =
      ⟨-((cols : ℚ) / max (cols : ℚ) (rows : ℚ)),
        (rows : ℚ) / max (cols : ℚ) (rows : ℚ), 0⟩ := by
    unfold corner
    rw [hpat]
    rfl
  have huW : 0 < (cols : ℚ) / max (cols : ℚ) (rows : ℚ) := div_pos hcq hM
  have huH : 0 < (rows : ℚ) / max (cols : ℚ) (rows : ℚ) := div_pos hrq hM
  refine ⟨by rw [hpat]; rfl, ?_, ?_, ?_, ?_, ?_, ?_, ?_, ?_, ?_, ?_, ?_, ?_, ?_⟩
  · intro p hp
    rw [hpat] at hp
    simp only [List.mem_cons, List.not_mem_nil, or_false] at hp
    rcases hp with rfl | rfl | rfl | rfl <;> rfl
  · simp only [hcor0, hcor1]
  · simp only [hcor1, hcor2]
  · simp only [hcor2, hcor3]
  · simp only [hcor3, hcor0]
  · simp only [hcor0, hcor2]
    ring
  · simp only [hcor0, hcor2]
    ring
  · simp only [hcor1, hcor3]
    ring
  · simp only [hcor1, hcor3]
    ring
  · simp only [hcor0, hcor1]
    linarith
  · simp only [hcor0, hcor3]
    linarith
  · simp only [hcor0, hcor1, hcor3]
    field_simp
    ring
  · simp only [hcor0, hcor1, hcor3]
    rcases le_total (cols : ℚ) (rows : ℚ) with hle | hle
    · rw [max_eq_right hle, div_self (ne_of_gt hrq)]
      have hle1 : (cols : ℚ) / (rows : ℚ) ≤ 1 := (div_le_one hrq).mpr hle
      rw [max_eq_right (by linarith)]
      norm_num
    · rw [max_eq_left hle, div_self (ne_of_gt hcq)]
      have hle1 : (rows : ℚ) / (cols : ℚ) ≤ 1 := (div_le_one hcq).mpr hle
      rw [max_eq_left (by linarith)]
      norm_num

theorem C1_witness :
    (buildPatternFromImage envC1 ()).points3d.length = 4 ∧
    (∀ p ∈ (buildPatternFromImage envC1 ()).points3d, p.z = 0) ∧
    (corner (buildPatternFromImage envC1 ()) 0).y =
      (corner (buildPatternFromImage envC1 ()) 1).y ∧
    (corner (buildPatternFromImage envC1 ()) 1).x =
      (corner (buildPatternFromImage envC1 ()) 2).x ∧
    (corner (buildPatternFromImage envC1 ()) 2).y =
      (corner (buildPatternFromImage envC1 ()) 3).y ∧
    (corner (buildPatternFromImage envC1 ()) 3).x =
      (corner (buildPatternFromImage envC1 ()) 0).x ∧
    (corner (buildPatternFromImage envC1 ()) 0).x +
      (corner (buildPatternFromImage envC1 ()) 2).x = 0 ∧
    (corner (buildPatternFromImage envC1 ()) 0).y +
      (corner (buildPatternFromImage envC1 ()) 2).y = 0 ∧
    (corner (buildPatternFromImage envC1 ()) 1).x +
      (corner (buildPatternFromImage envC1 ()) 3).x = 0 ∧
    (corner (buildPatternFromImage envC1 ()) 1).y +
      (corner (buildPatternFromImage envC1 ()) 3).y = 0 ∧
    0 < (corner (buildPatternFromImage envC1 ()) 1).x -
      (corner (buildPatternFromImage envC1 ()) 0).x ∧
    0 < (corner (buildPatternFromImage envC1 ()) 3).y -
      (corner (buildPatternFromImage envC1 ()) 0).y ∧
    ((corner (buildPatternFromImage envC1 ()) 1).x -
      (corner (buildPatternFromImage envC1 ()) 0).x) * ((1 : ℕ) : ℚ) =
      ((corner (buildPatternFromImage envC1 ()) 3).y -
        (corner (buildPatternFromImage envC1 ()) 0).y) * ((2 : ℕ) : ℚ) ∧
    max ((corner (buildPatternFromImage envC1 ()) 1).x -
        (corner (buildPatternFromImage envC1 ()) 0).x)
      ((corner (buildPatternFromImage envC1 ()) 3).y -
        (corner (buildPatternFromImage envC1 ()) 0).y) = 2 :=
  C1_points3d_amended Unit envC1 () 2 1 rfl (by omega) (by omega)
